import Mathlib

/-!
Verification of the `py_part_recipe` repository.

The Python sources are shallowly embedded below: Python `int` is `Int`
(arbitrary precision in both), functions that may `raise` return
`Except PyError`, and Python `raise` sites are modelled by distinct
`PyError` constructors (Python distinguishes these errors only by their
class and message text; each constructor stands for one raise site's
message template).

Python `//` and `%` on integers are floor division and its remainder.
Every division in the embedded code is guarded so that its divisor is
positive (`optimal_size` raises unless `block_size >= 1` before dividing),
and for a positive divisor Lean's `Int` division (Euclidean) coincides
with floor division, so `/` and `%` below are exact models.

`qualify_chunks` performs two computations in IEEE-754 double arithmetic:
`round(delta * weight / sum_weight)` and
`int(opt_min + remaining * (adjusted_delta / sum_deltas))`.
Both are deterministic functions of their integer inputs, so they are
modelled by explicit function parameters (`ro` and `ap` below); the
general theorems hold for every choice of these functions, hence in
particular for the IEEE-754 ones.  Concrete evaluations instantiate them
with exact-rational models (`pyRoundDiv`, `pyMixDiv`); each concrete
input used below only exercises IEEE operations that are exact (small
integers, zero or integral intermediate quotients), where the rational
model and the double model agree.
-/

namespace PyPartRecipe

/-- Decidable equality for `Except`, used to evaluate the embedded
functions on concrete inputs. -/
instance {ε α : Type} [DecidableEq ε] [DecidableEq α] : DecidableEq (Except ε α) := fun x y =>
  match x, y with
  | .error a, .error b =>
    if h : a = b then .isTrue (by rw [h])
    else .isFalse (by intro hc; injection hc; contradiction)
  | .ok a, .ok b =>
    if h : a = b then .isTrue (by rw [h])
    else .isFalse (by intro hc; injection hc; contradiction)
  | .error _, .ok _ => .isFalse (by intro hc; exact Except.noConfusion hc)
  | .ok _, .error _ => .isFalse (by intro hc; exact Except.noConfusion hc)

/-- Error kinds raised by the embedded code.  Each constructor models one
`raise` site (or family of sites sharing a message template) in the
Python sources. -/
inductive PyError where
  /-- `spacer.qualify_chunks` line 98: `ValueError("not enough space in block_space")`. -/
  | notEnoughSpace
  /-- `spacer.optimal_size` lines 50-53: `ValueError` on `size < 1` or `block_size < 1`. -/
  | valueBadSizeParams
  /-- `spacer.BlockChunk.delta_max_min` lines 17-18: `ValueError` when the
  optimal sizes have not been set. -/
  | valueUnsetOptimal
  /-- Python `ZeroDivisionError` from `/` with zero divisor
  (`qualify_chunks` lines 118 and 124). -/
  | zeroDivision
  /-- Python `AttributeError` for a missing attribute `name`. -/
  | attributeError (name : List Char)
  /-- Python `ValueError` from `min()`/`max()` of an empty sequence. -/
  | valueMinEmpty
  /-- `partition_common.convert_size_to_bytes` lines 109-111: unknown unit. -/
  | unknownUnit
  /-- `partition_common.convert_size_to_bytes` line 114: `raise` applied to a
  plain string (CPython turns this into a `TypeError`). -/
  | badQuantityRaise
  /-- `volume_common.RaidVolume._check_devices` lines 215-229: the three
  "wrong number of devices" `ValueError`s. -/
  | raidWrongDeviceCount
  /-- `volume_common.RaidVolume._check_devices` lines 232-235: devices
  common between raid and spares. -/
  | raidSpareOverlap
  /-- `volume_common.RaidVolume._check_devices` lines 240-243: totals
  mismatch `ValueError`. -/
  | raidDeviceTotalMismatch
  /-- Python `IndexError` from list indexing. -/
  | indexError
  /-- `common.validate_handle` line 19: `ValueError` for a handle that does
  not match `HANDLE_RE`. -/
  | badHandle
deriving DecidableEq

/-- `spacer.BlockChunk` (lines 5-19): a dataclass whose `__init__` takes
`min_size`, `max_size`, `weight` and initialises the four derived fields
to `-1` (`field(default=-1, init=False)`). -/
structure BlockChunk where
  min_size : Int
  max_size : Int
  weight : Int
  optimal_min_size : Int
  optimal_max_size : Int
  optimal_final_size : Int
  adjusted_delta : Int
deriving DecidableEq

/-- The dataclass constructor `BlockChunk(min_size, max_size, weight)`:
the `init=False` fields start at `-1`. -/
def BC (mn mx w : Int) : BlockChunk :=
  ⟨mn, mx, w, -1, -1, -1, -1⟩

/-- `spacer.BlockChunk.delta_max_min` (lines 15-19). -/
def BlockChunk.delta_max_min (c : BlockChunk) : Except PyError Int :=
  if c.optimal_max_size = -1 ∨ c.optimal_min_size = -1 then
    .error .valueUnsetOptimal
  else
    .ok (c.optimal_max_size - c.optimal_min_size)

/-- `spacer.ChunkableSpace` (lines 22-29). -/
structure ChunkableSpace where
  size_in_blocks : Int
  block_size : Int
deriving DecidableEq

/-- `spacer.ChunkableSpace.size_in_octets` (lines 27-29). -/
def ChunkableSpace.size_in_octets (sp : ChunkableSpace) : Int :=
  sp.size_in_blocks * sp.block_size

/-- `spacer.optimal_size` (lines 32-59).  `size = int(size)` and
`block_size = int(block_size)` are identities on integer input (on the
one float call site the caller passes the already-truncated value, see
`assignFinals`). -/
def optimal_size (size block_size : Int) (upward : Bool := true) :
    Except PyError Int :=
  if size < 1 ∨ block_size < 1 then .error .valueBadSizeParams
  else if size % block_size = 0 then .ok (size / block_size * block_size)
  else
    let nb_blocks := if upward then size / block_size + 1 else size / block_size
    .ok (nb_blocks * block_size)

/-- Evaluation of a Python list comprehension whose element expression may
raise: the first exception aborts the whole comprehension. -/
def mapE {α β : Type} (f : α → Except PyError β) : List α → Except PyError (List β)
  | [] => .ok []
  | a :: l =>
    match f a with
    | .error e => .error e
    | .ok b =>
      match mapE f l with
      | .error e => .error e
      | .ok bs => .ok (b :: bs)

/-- `spacer.has_minmun_space` (lines 62-79). -/
def has_minmun_space (block_space : ChunkableSpace) (chunks : List BlockChunk) :
    Except PyError Bool :=
  match mapE (fun c => optimal_size c.min_size block_space.block_size true) chunks with
  | .error e => .error e
  | .ok chunks_sizes =>
    .ok (decide (block_space.block_size * block_space.size_in_blocks ≥ chunks_sizes.sum))

/-- `spacer.qualify_chunks` lines 99-103: set `optimal_min_size` and
`optimal_max_size` on a chunk. -/
def mkOptChunk (block_size : Int) (c : BlockChunk) : Except PyError BlockChunk :=
  match optimal_size c.min_size block_size true with
  | .error e => .error e
  | .ok omin =>
    match optimal_size c.max_size block_size false with
    | .error e => .error e
    | .ok omax =>
      .ok { c with optimal_min_size := omin, optimal_max_size := omax }

/-- `spacer.qualify_chunks` lines 117-118: set `adjusted_delta` to
`round(chunk.delta_max_min * chunk.weight / sum_weight)`.  The float
`round` is the oracle `ro` applied to the exact numerator and
denominator; the division raises `ZeroDivisionError` when
`sum_weight == 0`. -/
def setAdjusted (ro : Int → Int → Int) (sum_weight : Int) (c : BlockChunk) :
    Except PyError BlockChunk :=
  match c.delta_max_min with
  | .error e => .error e
  | .ok d =>
    if sum_weight = 0 then .error .zeroDivision
    else .ok { c with adjusted_delta := ro (d * c.weight) sum_weight }

/-- `spacer.qualify_chunks` lines 123-136: the final-size loop.  `acc`
holds the already-processed prefix (in reverse), `rest` the chunks still
to be visited; `index == len(chunks) - 1` corresponds to `rest` being a
singleton.  `factor = chunk.adjusted_delta / sum_deltas` (line 124) is
computed before the last-index test, so a zero `sum_deltas` raises at
every index; its value is otherwise only consumed through
`int(chunk.optimal_min_size + remaiming_space * factor)` inside
`optimal_size`, modelled by the oracle `ap`. -/
def assignFinals (ap : Int → Int → Int → Int → Int)
    (octets block_size sum_deltas remaining : Int) :
    List BlockChunk → List BlockChunk → Except PyError (List BlockChunk)
  | acc, [] => .ok acc.reverse
  | acc, c :: rest =>
    if sum_deltas = 0 then .error .zeroDivision
    else
      match rest with
      | [] =>
        -- last index: `used_space` sums `optimal_final_size` over all chunks
        -- whose final size is set (`!= -1`); at this point those are exactly
        -- the already-processed prefix plus the current chunk.
        let all := acc.reverse ++ [c]
        let used := ((all.filter fun ch => decide (ch.optimal_final_size ≠ -1)).map
          fun ch => ch.optimal_final_size).sum
        .ok (acc.reverse ++ [{ c with optimal_final_size := octets - used }])
      | _ :: _ =>
        match optimal_size (ap c.optimal_min_size remaining c.adjusted_delta sum_deltas)
            block_size false with
        | .error e => .error e
        | .ok f =>
          assignFinals ap octets block_size sum_deltas remaining
            ({ c with optimal_final_size := f } :: acc) rest

/-- `spacer.qualify_chunks` (lines 82-136).  `ro` and `ap` are the two
IEEE-754 computations, see the file comment. -/
def qualify_chunks (ro : Int → Int → Int) (ap : Int → Int → Int → Int → Int)
    (block_space : ChunkableSpace) (chunks : List BlockChunk) :
    Except PyError (List BlockChunk) :=
  match has_minmun_space block_space chunks with
  | .error e => .error e
  | .ok false => .error .notEnoughSpace
  | .ok true =>
    match mapE (mkOptChunk block_space.block_size) chunks with
    | .error e => .error e
    | .ok qs1 =>
      let sum_max_chunks := (qs1.map fun c => c.optimal_max_size).sum
      let minimum_free_space := block_space.size_in_octets - sum_max_chunks
      if minimum_free_space < 0 then
        -- competition_for_space = True
        let sum_weight := (qs1.map fun c => c.weight).sum
        match mapE (setAdjusted ro sum_weight) qs1 with
        | .error e => .error e
        | .ok qs2 =>
          let sum_deltas := (qs2.map fun c => c.adjusted_delta).sum
          let sum_min_chunks := (qs2.map fun c => c.optimal_min_size).sum
          let remaining := block_space.size_in_octets - sum_min_chunks
          assignFinals ap block_space.size_in_octets block_space.block_size
            sum_deltas remaining [] qs2
      else
        .ok (qs1.map fun c => { c with optimal_final_size := c.optimal_max_size })

/-- Exact-rational model of Python `round(num / den)`: round half to even
on the exact quotient.  Python computes the quotient in IEEE-754 doubles;
at every concrete input below the double quotient is exact, so the two
agree there. -/
def pyRoundDiv (num den : Int) : Int :=
  if den = 0 then 0
  else
    let n := if den < 0 then -num else num
    let d := if den < 0 then -den else den
    let q := Int.fdiv n d
    let r := n - q * d
    if 2 * r < d then q
    else if d < 2 * r then q + 1
    else if q % 2 = 0 then q else q + 1

/-- Exact-rational model of Python
`int(omin + remaining * (adj / sum_deltas))`: truncation toward zero of
the exact value `(omin * sum_deltas + remaining * adj) / sum_deltas`.
At every concrete input below the IEEE-754 evaluation is exact, so the
two agree there. -/
def pyMixDiv (omin remaining adj sum_deltas : Int) : Int :=
  if sum_deltas = 0 then 0
  else Int.tdiv (omin * sum_deltas + remaining * adj) sum_deltas

/-- The claim's `round_up(x, b)`: `x` when `b` divides `x`, else
`(x // b + 1) * b` (floor division; the operands are positive wherever
this is used). -/
def round_up (size block_size : Int) : Int :=
  if size % block_size = 0 then size / block_size * block_size
  else (size / block_size + 1) * block_size

lemma optimal_size_error {s b : Int} {u : Bool} {e : PyError}
    (h : optimal_size s b u = .error e) : e = .valueBadSizeParams := by
  unfold optimal_size at h
  split at h
  · exact (Except.error.inj h).symm
  · split at h <;> simp at h

lemma optimal_size_ok_dvd {s b : Int} {u : Bool} {r : Int}
    (h : optimal_size s b u = .ok r) : b ∣ r := by
  unfold optimal_size at h
  split at h
  · simp at h
  · split at h
    · rw [← Except.ok.inj h]; exact dvd_mul_left b _
    · rw [← Except.ok.inj h]; exact dvd_mul_left b _

lemma optimal_size_ok_nonneg {s b : Int} {u : Bool} {r : Int}
    (h : optimal_size s b u = .ok r) : 0 ≤ r := by
  unfold optimal_size at h
  split at h
  · simp at h
  next hg =>
    push_neg at hg
    have hdiv : 0 ≤ s / b := Int.ediv_nonneg (by omega) (by omega)
    split at h
    · rw [← Except.ok.inj h]
      exact mul_nonneg hdiv (by omega)
    · rw [← Except.ok.inj h]
      cases u <;> simp only [Bool.false_eq_true, if_true, if_false]
      · exact mul_nonneg hdiv (by omega)
      · exact mul_nonneg (by omega) (by omega)

lemma optimal_size_ok_ne_neg_one {s b : Int} {u : Bool} {r : Int}
    (h : optimal_size s b u = .ok r) : r ≠ -1 := by
  have := optimal_size_ok_nonneg h
  omega

lemma optimal_size_up_eq_round_up {s b : Int} (hs : 1 ≤ s) (hb : 1 ≤ b) :
    optimal_size s b true = .ok (round_up s b) := by
  unfold optimal_size round_up
  rw [if_neg (by omega)]
  split <;> rfl

lemma mapE_ok_length {α β : Type} {f : α → Except PyError β} :
    ∀ {l : List α} {r : List β}, mapE f l = .ok r → r.length = l.length := by
  intro l
  induction l with
  | nil => intro r h; simp only [mapE] at h; rw [← Except.ok.inj h]; rfl
  | cons a t ih =>
    intro r h
    simp only [mapE] at h
    cases hfa : f a with
    | error e => rw [hfa] at h; simp at h
    | ok b =>
      rw [hfa] at h
      cases ht : mapE f t with
      | error e => rw [ht] at h; simp at h
      | ok bs =>
        rw [ht] at h
        rw [← Except.ok.inj h]
        simp [ih ht]

lemma mapE_ok_forall {α β : Type} {f : α → Except PyError β} :
    ∀ {l : List α} {r : List β}, mapE f l = .ok r →
      ∀ b ∈ r, ∃ a ∈ l, f a = .ok b := by
  intro l
  induction l with
  | nil =>
    intro r h
    simp only [mapE] at h
    rw [← Except.ok.inj h]
    simp
  | cons a t ih =>
    intro r h
    simp only [mapE] at h
    cases hfa : f a with
    | error e => rw [hfa] at h; simp at h
    | ok b =>
      rw [hfa] at h
      cases ht : mapE f t with
      | error e => rw [ht] at h; simp at h
      | ok bs =>
        rw [ht] at h
        rw [← Except.ok.inj h]
        intro x hx
        rcases List.mem_cons.mp hx with hx | hx
        · exact ⟨a, List.mem_cons_self a t, hx ▸ hfa⟩
        · rcases ih ht x hx with ⟨a', ha', hfa'⟩
          exact ⟨a', List.mem_cons_of_mem a ha', hfa'⟩

lemma mapE_error {α β : Type} {f : α → Except PyError β} :
    ∀ {l : List α} {e : PyError}, mapE f l = .error e →
      ∃ a ∈ l, f a = .error e := by
  intro l
  induction l with
  | nil => intro e h; simp [mapE] at h
  | cons a t ih =>
    intro e h
    simp only [mapE] at h
    cases hfa : f a with
    | error e' =>
      rw [hfa] at h
      exact ⟨a, List.mem_cons_self a t, by rw [hfa, Except.error.inj h]⟩
    | ok b =>
      rw [hfa] at h
      cases ht : mapE f t with
      | error e' =>
        rw [ht] at h
        rcases ih (ht.trans (by rw [Except.error.inj h])) with ⟨a', ha', hfa'⟩
        exact ⟨a', List.mem_cons_of_mem a ha', hfa'⟩
      | ok bs => rw [ht] at h; simp at h

lemma mapE_map {α β : Type} {f : α → Except PyError β} {g : α → β} :
    ∀ {l : List α}, (∀ a ∈ l, f a = .ok (g a)) → mapE f l = .ok (l.map g) := by
  intro l
  induction l with
  | nil => intro _; rfl
  | cons a t ih =>
    intro h
    simp only [mapE]
    rw [h a (List.mem_cons_self a t), ih fun x hx => h x (List.mem_cons_of_mem a hx)]
    rfl

lemma mkOptChunk_ok {b : Int} {c q : BlockChunk} (h : mkOptChunk b c = .ok q) :
    b ∣ q.optimal_min_size ∧ b ∣ q.optimal_max_size ∧
      0 ≤ q.optimal_min_size ∧ 0 ≤ q.optimal_max_size ∧
      q.optimal_final_size = c.optimal_final_size ∧ q.weight = c.weight := by
  unfold mkOptChunk at h
  cases h1 : optimal_size c.min_size b true with
  | error e => rw [h1] at h; simp at h
  | ok omin =>
    rw [h1] at h
    cases h2 : optimal_size c.max_size b false with
    | error e => rw [h2] at h; simp at h
    | ok omax =>
      rw [h2] at h
      rw [← Except.ok.inj h]
      exact ⟨optimal_size_ok_dvd h1, optimal_size_ok_dvd h2,
        optimal_size_ok_nonneg h1, optimal_size_ok_nonneg h2, rfl, rfl⟩

lemma mkOptChunk_error {b : Int} {c : BlockChunk} {e : PyError}
    (h : mkOptChunk b c = .error e) : e = .valueBadSizeParams := by
  unfold mkOptChunk at h
  cases h1 : optimal_size c.min_size b true with
  | error e' => rw [h1] at h; exact (Except.error.inj h) ▸ optimal_size_error h1
  | ok omin =>
    rw [h1] at h
    cases h2 : optimal_size c.max_size b false with
    | error e' => rw [h2] at h; exact (Except.error.inj h) ▸ optimal_size_error h2
    | ok omax => rw [h2] at h; simp at h

lemma setAdjusted_ok {ro : Int → Int → Int} {w : Int} {c q : BlockChunk}
    (h : setAdjusted ro w c = .ok q) :
    q.optimal_min_size = c.optimal_min_size ∧
      q.optimal_max_size = c.optimal_max_size ∧
      q.optimal_final_size = c.optimal_final_size := by
  cases h1 : c.delta_max_min with
  | error e => simp only [setAdjusted, h1] at h; exact absurd h (by simp)
  | ok d =>
    simp only [setAdjusted, h1] at h
    split at h
    · exact absurd h (by simp)
    · rw [← Except.ok.inj h]; exact ⟨rfl, rfl, rfl⟩

lemma delta_max_min_error {c : BlockChunk} {e : PyError}
    (h : c.delta_max_min = .error e) : e = .valueUnsetOptimal := by
  unfold BlockChunk.delta_max_min at h
  split at h
  · exact (Except.error.inj h).symm
  · simp at h

lemma setAdjusted_error {ro : Int → Int → Int} {w : Int} {c : BlockChunk}
    {e : PyError} (h : setAdjusted ro w c = .error e) :
    e = .valueUnsetOptimal ∨ e = .zeroDivision := by
  cases h1 : c.delta_max_min with
  | error e' =>
    simp only [setAdjusted, h1] at h
    left
    rw [← Except.error.inj h]
    exact delta_max_min_error h1
  | ok d =>
    simp only [setAdjusted, h1] at h
    split at h
    · right; exact (Except.error.inj h).symm
    · exact absurd h (by simp)

lemma assignFinals_nil {ap : Int → Int → Int → Int → Int}
    {octets b sd rm : Int} {acc : List BlockChunk} :
    assignFinals ap octets b sd rm acc [] = .ok acc.reverse := rfl

lemma assignFinals_last {ap : Int → Int → Int → Int → Int}
    {octets b sd rm : Int} {acc : List BlockChunk} {c : BlockChunk} :
    assignFinals ap octets b sd rm acc [c] =
      if sd = 0 then .error .zeroDivision
      else
        .ok (acc.reverse ++
          [{ c with optimal_final_size := octets -
              (((acc.reverse ++ [c]).filter fun ch =>
                  decide (ch.optimal_final_size ≠ -1)).map
                fun ch => ch.optimal_final_size).sum }]) := rfl

lemma assignFinals_cons_cons {ap : Int → Int → Int → Int → Int}
    {octets b sd rm : Int} {acc : List BlockChunk} {c c2 : BlockChunk}
    {t : List BlockChunk} :
    assignFinals ap octets b sd rm acc (c :: c2 :: t) =
      if sd = 0 then .error .zeroDivision
      else
        match optimal_size (ap c.optimal_min_size rm c.adjusted_delta sd) b false with
        | .error e => .error e
        | .ok f =>
          assignFinals ap octets b sd rm
            ({ c with optimal_final_size := f } :: acc) (c2 :: t) := rfl

lemma assignFinals_error {ap : Int → Int → Int → Int → Int}
    {octets b sd rm : Int} :
    ∀ {rest acc : List BlockChunk} {e : PyError},
      assignFinals ap octets b sd rm acc rest = .error e →
      e = .zeroDivision ∨ e = .valueBadSizeParams := by
  intro rest
  induction rest with
  | nil => intro acc e h; rw [assignFinals_nil] at h; exact absurd h (by simp)
  | cons c rest ih =>
    intro acc e h
    cases rest with
    | nil =>
      rw [assignFinals_last] at h
      split at h
      · left; exact (Except.error.inj h).symm
      · exact absurd h (by simp)
    | cons c2 t =>
      rw [assignFinals_cons_cons] at h
      split at h
      · left; exact (Except.error.inj h).symm
      · cases ho : optimal_size (ap c.optimal_min_size rm c.adjusted_delta sd) b false with
        | error e' =>
          rw [ho] at h
          right
          rw [← Except.error.inj h]
          exact optimal_size_error ho
        | ok f =>
          rw [ho] at h
          exact ih h

lemma assignFinals_dvd {ap : Int → Int → Int → Int → Int}
    {octets b sd rm : Int} (hoct : b ∣ octets) :
    ∀ {rest acc out : List BlockChunk},
      (∀ q ∈ acc, b ∣ q.optimal_final_size ∧ q.optimal_final_size ≠ -1) →
      (∀ q ∈ rest, q.optimal_final_size = -1) →
      assignFinals ap octets b sd rm acc rest = .ok out →
      ∀ q ∈ out, b ∣ q.optimal_final_size := by
  intro rest
  induction rest with
  | nil =>
    intro acc out hacc _ h q hq
    rw [assignFinals_nil] at h
    rw [← Except.ok.inj h] at hq
    exact (hacc q (List.mem_reverse.mp hq)).1
  | cons c rest ih =>
    intro acc out hacc hrest h q hq
    cases rest with
    | nil =>
      rw [assignFinals_last] at h
      split at h
      · exact absurd h (by simp)
      · rw [← Except.ok.inj h] at hq
        rcases List.mem_append.mp hq with hq1 | hq1
        · exact (hacc q (List.mem_reverse.mp hq1)).1
        · rw [List.mem_singleton.mp hq1]
          refine dvd_sub hoct (List.dvd_sum ?_)
          intro x hx
          rcases List.mem_map.mp hx with ⟨ch, hch, hx'⟩
          rw [← hx']
          rcases List.mem_filter.mp hch with ⟨hchmem, hchp⟩
          rcases List.mem_append.mp hchmem with hch1 | hch1
          · exact (hacc ch (List.mem_reverse.mp hch1)).1
          · rw [List.mem_singleton.mp hch1] at hchp
            have hc1 : c.optimal_final_size = -1 := hrest c (List.mem_cons_self _ _)
            simp [hc1] at hchp
    | cons c2 t =>
      rw [assignFinals_cons_cons] at h
      split at h
      · exact absurd h (by simp)
      · cases ho : optimal_size (ap c.optimal_min_size rm c.adjusted_delta sd) b false with
        | error e => rw [ho] at h; exact absurd h (by simp)
        | ok f =>
          rw [ho] at h
          refine ih ?_ ?_ h q hq
          · intro x hx
            rcases List.mem_cons.mp hx with hx1 | hx1
            · rw [hx1]
              exact ⟨optimal_size_ok_dvd ho, optimal_size_ok_ne_neg_one ho⟩
            · exact hacc x hx1
          · intro x hx
            exact hrest x (List.mem_cons_of_mem _ hx)

lemma assignFinals_sum {ap : Int → Int → Int → Int → Int}
    {octets b sd rm : Int} :
    ∀ {rest acc out : List BlockChunk}, rest ≠ [] →
      (∀ q ∈ acc, q.optimal_final_size ≠ -1) →
      (∀ q ∈ rest, q.optimal_final_size = -1) →
      assignFinals ap octets b sd rm acc rest = .ok out →
      (out.map fun q => q.optimal_final_size).sum = octets := by
  intro rest
  induction rest with
  | nil => intro acc out hne _ _ _; exact absurd rfl hne
  | cons c rest ih =>
    intro acc out _ hacc hrest h
    cases rest with
    | nil =>
      rw [assignFinals_last] at h
      split at h
      · exact absurd h (by simp)
      · rw [← Except.ok.inj h]
        have hfilter :
            (acc.reverse ++ [c]).filter (fun ch => decide (ch.optimal_final_size ≠ -1)) =
              acc.reverse := by
          rw [List.filter_append]
          have h1 : acc.reverse.filter (fun ch => decide (ch.optimal_final_size ≠ -1)) =
              acc.reverse :=
            List.filter_eq_self.mpr fun a ha => by
              simpa using hacc a (List.mem_reverse.mp ha)
          have h2 : [c].filter (fun ch => decide (ch.optimal_final_size ≠ -1)) = [] := by
            have hc1 : c.optimal_final_size = -1 := hrest c (List.mem_cons_self _ _)
            simp [List.filter, hc1]
          rw [h1, h2, List.append_nil]
        rw [List.map_append, List.sum_append, hfilter]
        simp only [List.map_cons, List.map_nil, List.sum_cons, List.sum_nil]
        ring
    | cons c2 t =>
      rw [assignFinals_cons_cons] at h
      split at h
      · exact absurd h (by simp)
      · cases ho : optimal_size (ap c.optimal_min_size rm c.adjusted_delta sd) b false with
        | error e => rw [ho] at h; exact absurd h (by simp)
        | ok f =>
          rw [ho] at h
          refine ih (by simp) ?_ ?_ h
          · intro x hx
            rcases List.mem_cons.mp hx with hx1 | hx1
            · rw [hx1]
              exact optimal_size_ok_ne_neg_one ho
            · exact hacc x hx1
          · intro x hx
            exact hrest x (List.mem_cons_of_mem _ hx)

lemma mapE_setAdjusted_final_neg_one {ro : Int → Int → Int} {b w : Int}
    {chunks qs1 qs2 : List BlockChunk}
    (hm1 : mapE (mkOptChunk b) chunks = .ok qs1)
    (hm2 : mapE (setAdjusted ro w) qs1 = .ok qs2)
    (hinit : ∀ c ∈ chunks, c.optimal_final_size = -1) :
    ∀ q ∈ qs2, q.optimal_final_size = -1 := by
  intro q hq
  rcases mapE_ok_forall hm2 q hq with ⟨c1, hc1, hset⟩
  rcases mapE_ok_forall hm1 c1 hc1 with ⟨c, hc, hmk⟩
  rw [(setAdjusted_ok hset).2.2, (mkOptChunk_ok hmk).2.2.2.2.1]
  exact hinit c hc

example :
    qualify_chunks pyRoundDiv pyMixDiv ⟨300, 10⟩ [BC 1500 1500 10, BC 1000 1000 20] =
      .ok [⟨1500, 1500, 10, 1500, 1500, 1500, -1⟩, ⟨1000, 1000, 20, 1000, 1000, 1000, -1⟩] := by
  decide

example :
    qualify_chunks pyRoundDiv pyMixDiv ⟨300, 10⟩ [BC 1500 2000 10, BC 1000 2000 20] =
      .ok [⟨1500, 2000, 10, 1500, 2000, 1600, 167⟩, ⟨1000, 2000, 20, 1000, 2000, 1400, 667⟩] := by
  decide

lemma has_minmun_space_eval {sp : ChunkableSpace} {chunks : List BlockChunk}
    (hb : 1 ≤ sp.block_size) (hmin : ∀ c ∈ chunks, 1 ≤ c.min_size) :
    has_minmun_space sp chunks =
      .ok (decide (sp.block_size * sp.size_in_blocks ≥
        (chunks.map fun c => round_up c.min_size sp.block_size).sum)) := by
  unfold has_minmun_space
  rw [@mapE_map _ _ _ (fun c => round_up c.min_size sp.block_size) chunks
    fun c hc => optimal_size_up_eq_round_up (hmin c hc) hb]


/-- Whitespace stripped by Python `str.strip()`, for the ASCII range
(Python also strips a few Unicode space code points, none of which occur
in any input considered here). -/
def pyIsSpace (c : Char) : Bool :=
  c == ' ' || c == '\t' || c == '\n' || c == '\r' || c == '\x0b' || c == '\x0c'

/-- Python `str.strip()`: drop leading and trailing whitespace. -/
def pyStrip (s : List Char) : List Char :=
  ((s.dropWhile pyIsSpace).reverse.dropWhile pyIsSpace).reverse

/-- One character of the character class of `common.HANDLE_RE`, the regex
`^[a-zA-z0-9_-]+$` exactly as the source writes it: the ranges `a-z`,
`A-z` (sic — from `A` to lowercase `z`), `0-9`, and the literals `_` and
`-`. -/
def srcHandleChar (c : Char) : Bool :=
  (decide ('a' ≤ c) && decide (c ≤ 'z')) ||
    (decide ('A' ≤ c) && decide (c ≤ 'z')) ||
    (decide ('0' ≤ c) && decide (c ≤ '9')) || c == '_' || c == '-'

/-- `HANDLE_RE.match(s)` succeeding: `re.match` anchors at the start, and
`$` matches at the end of the string or just before a trailing newline,
so `^[...]+$` matches iff the string — or the string less one trailing
newline — is a non-empty run of class characters. -/
def matchHandleRe (s : List Char) : Bool :=
  (!s.isEmpty && s.all srcHandleChar) ||
    (s.getLast? == some '\n' && !s.dropLast.isEmpty && s.dropLast.all srcHandleChar)

/-- `common.validate_handle` (lines 16-20); `str(handle)` is the identity
on string input. -/
def validate_handle (handle : List Char) : Except PyError (List Char) :=
  let handle := pyStrip handle
  if matchHandleRe handle then .ok handle else .error .badHandle

/-- One character of the character class of the *spec's* handle regex
`^[A-Za-z0-9_-]+$` (spec section 3, "Handle").  Stated from the spec's
words, for comparison with `srcHandleChar`. -/
def specHandleChar (c : Char) : Bool :=
  (decide ('A' ≤ c) && decide (c ≤ 'Z')) ||
    (decide ('a' ≤ c) && decide (c ≤ 'z')) ||
    (decide ('0' ≤ c) && decide (c ≤ '9')) || c == '_' || c == '-'

/-- The spec's regex `^[A-Za-z0-9_-]+$` matching a whole string. -/
def specHandleMatches (s : List Char) : Bool :=
  !s.isEmpty && s.all specHandleChar

/-- Python `str.isnumeric` restricted to ASCII input: non-empty and all
characters are decimal digits (Python additionally accepts some Unicode
numeric code points, none of which occur below). -/
def pyIsNumeric (s : List Char) : Bool :=
  !s.isEmpty && s.all Char.isDigit

/-- Python `int(...)` applied to a string of ASCII digits. -/
def digitsToInt (s : List Char) : Int :=
  s.foldl (fun acc c => 10 * acc + ((c.toNat : Int) - ('0'.toNat : Int))) 0

/-- The `parted.__exponents` table.  The table belongs to the external
`parted` library; its contents are fixed verbatim both by the docstring
of `convert_size_to_bytes` (lines 76-93) and by the spec (section 3,
"SizeLiteral"). -/
def exponents : List (List Char × Int) := [
  ("B".data, 1),
  ("kB".data, 1000),
  ("MB".data, 1000 ^ 2),
  ("GB".data, 1000 ^ 3),
  ("TB".data, 1000 ^ 4),
  ("PB".data, 1000 ^ 5),
  ("EB".data, 1000 ^ 6),
  ("ZB".data, 1000 ^ 7),
  ("YB".data, 1000 ^ 8),
  ("KiB".data, 1024),
  ("MiB".data, 1024 ^ 2),
  ("GiB".data, 1024 ^ 3),
  ("TiB".data, 1024 ^ 4),
  ("PiB".data, 1024 ^ 5),
  ("EiB".data, 1024 ^ 6),
  ("ZiB".data, 1024 ^ 7),
  ("YiB".data, 1024 ^ 8)]

/-- `partition_common.convert_size_to_bytes` (lines 70-116) on string
input.  `size.replace(" ", "")` removes every space character (and only
spaces); `index_first_char_not_in(size, digits)` returns the index of
the first non-digit, or `None` when every character is a digit — and the
slices `size[None:]` and `size[:None]` are then the whole string. -/
def convert_size_to_bytes (size : List Char) : Except PyError Int :=
  if pyIsNumeric size then .ok (digitsToInt size)
  else
    let size := (pyStrip size).filter fun c => c != ' '
    let unit_position := size.findIdx? fun c => !c.isDigit
    let unit := match unit_position with
      | none => size
      | some i => size.drop i
    match List.lookup unit exponents with
    | none => .error .unknownUnit
    | some mult =>
      let quantity_str := match unit_position with
        | none => size
        | some i => size.take i
      if !pyIsNumeric quantity_str then .error .badQuantityRaise
      else .ok (digitsToInt quantity_str * mult)

lemma dropWhile_head_false {p : Char → Bool} :
    ∀ {l : List Char} {c : Char}, (l.dropWhile p).head? = some c → p c = false := by
  intro l
  induction l with
  | nil => intro c h; simp [List.dropWhile] at h
  | cons a t ih =>
    intro c h
    rw [List.dropWhile_cons] at h
    split at h
    · exact ih h
    next hp =>
      rw [List.head?_cons] at h
      rw [← Option.some.inj h]
      exact Bool.eq_false_iff.mpr hp

lemma dropWhile_eq_self_of_all {p f : Char → Bool}
    (hpf : ∀ c, f c = true → p c = false) :
    ∀ {l : List Char}, l.all f = true → l.dropWhile p = l := by
  intro l
  cases l with
  | nil => intro _; rfl
  | cons a t =>
    intro h
    rw [List.all_cons] at h
    simp only [Bool.and_eq_true] at h
    rw [List.dropWhile_cons, hpf a h.1]
    simp

lemma srcHandleChar_not_space {c : Char} (h : srcHandleChar c = true) :
    pyIsSpace c = false := by
  cases hp : pyIsSpace c
  · rfl
  · exfalso
    simp only [pyIsSpace, Bool.or_eq_true, beq_iff_eq] at hp
    rcases hp with (((((h1 | h1) | h1) | h1) | h1) | h1) <;>
      (subst h1; exact absurd h (by decide))

lemma pyStrip_of_all_handleChar {s : List Char}
    (hall : s.all srcHandleChar = true) : pyStrip s = s := by
  unfold pyStrip
  rw [dropWhile_eq_self_of_all (fun c hc => srcHandleChar_not_space hc) hall]
  rw [dropWhile_eq_self_of_all (fun c hc => srcHandleChar_not_space hc)
    (List.all_eq_true.mpr fun x hx =>
      List.all_eq_true.mp hall x (List.mem_reverse.mp hx))]
  exact List.reverse_reverse s

lemma pyStrip_getLast_not_space {l : List Char} {c : Char}
    (h : (pyStrip l).getLast? = some c) : pyIsSpace c = false := by
  unfold pyStrip at h
  rw [List.getLast?_reverse] at h
  exact dropWhile_head_false h


/-- Python attribute lookup on a `ChunkableSpace` instance: the dataclass
defines exactly the fields `size_in_blocks` and `block_size` and the
property `size_in_octets`; any other attribute name raises
`AttributeError`. -/
def csGetattr (cs : ChunkableSpace) (name : List Char) : Except PyError Int :=
  if name = "size_in_blocks".data then .ok cs.size_in_blocks
  else if name = "block_size".data then .ok cs.block_size
  else if name = "size_in_octets".data then .ok cs.size_in_octets
  else .error (.attributeError name)

/-- Python `min(list)`: raises `ValueError` on an empty list. -/
def pyMinList : List Int → Except PyError Int
  | [] => .error .valueMinEmpty
  | a :: l => .ok (l.foldl min a)

/-- Python `max(list)`: raises `ValueError` on an empty list. -/
def pyMaxList : List Int → Except PyError Int
  | [] => .error .valueMinEmpty
  | a :: l => .ok (l.foldl max a)

/-- `partition_common.Recipe._set_commons` (lines 239-257), restricted to
the common-geometry computation (the remainder of the method queries the
external `parted` adapter for partition-table types).  Each device is
represented by its `addressable_space`; attribute access goes through
`csGetattr` because the method reads `dev.addressable_space.nb_block`
(line 248), an attribute `ChunkableSpace` does not define.  Returns
`(common_space, common_block_size)`. -/
def set_commons (devices : List ChunkableSpace) : Except PyError (Int × Int) :=
  match mapE (fun dev =>
      match csGetattr dev ("nb_block".data) with
      | .error e => .error e
      | .ok nb =>
        match csGetattr dev ("block_size".data) with
        | .error e => .error e
        | .ok bs => (.ok (nb * bs) : Except PyError Int)) devices with
  | .error e => .error e
  | .ok sizes =>
    match pyMinList sizes with
    | .error e => .error e
    | .ok common_space =>
      match mapE (fun dev => csGetattr dev ("block_size".data)) devices with
      | .error e => .error e
      | .ok bss =>
        match pyMaxList bss with
        | .error e => .error e
        | .ok common_block_size =>
          .ok (common_space / common_block_size * common_block_size, common_block_size)

/-- Python list indexing `lst[i]`: negative indices count from the end;
out of range raises `IndexError`. -/
def pyIndex (l : List Int) (i : Int) : Except PyError Int :=
  let j : Int := if i < 0 then (l.length : Int) + i else i
  if h : 0 ≤ j ∧ j < (l.length : Int) then
    .ok (l.get ⟨j.toNat, by omega⟩)
  else .error .indexError

/-- `volume_common.RaidVolume._check_devices` (lines 214-245) together
with the `set_devices` it ends by calling (lines 247-252).
`part_devices` stands for
`partitionners.get_partitions_by_handle(partitions_handle)`, with
partitions represented by opaque integer identifiers.  Returns
`(devices, spares)`. -/
def check_devices (raid_level : Int) (dev_indices spare_indices : List Int)
    (part_devices : List Int) : Except PyError (List Int × List Int) :=
  if raid_level = 1 ∧ dev_indices.length ≠ 2 then .error .raidWrongDeviceCount
  else if raid_level = 10 ∧ dev_indices.length ≠ 4 then .error .raidWrongDeviceCount
  else if (raid_level = 4 ∨ raid_level = 5 ∨ raid_level = 6) ∧ dev_indices.length < 3 then
    .error .raidWrongDeviceCount
  else if dev_indices.any fun d => spare_indices.contains d then
    .error .raidSpareOverlap
  else if spare_indices.length + dev_indices.length ≠ part_devices.length then
    .error .raidDeviceTotalMismatch
  else
    match mapE (pyIndex part_devices) dev_indices with
    | .error e => .error e
    | .ok devs =>
      match mapE (pyIndex part_devices) spare_indices with
      | .error e => .error e
      | .ok spares => .ok (devs, spares)

lemma pyIndex_error {l : List Int} {i : Int} {e : PyError}
    (h : pyIndex l i = .error e) : e = .indexError := by
  unfold pyIndex at h
  dsimp only at h
  split at h <;> split at h <;>
    first
      | exact (Except.error.inj h).symm
      | exact absurd h (by simp)

namespace Claims

/-- Claim C1, counterexample.  The claim asserts that for every valid
non-contested or contested allocation the final sizes sum exactly to
`space.size_in_blocks * space.block_size`.  On `ChunkableSpace(2, 1)` with
the single request `BlockChunk(1, 1, 0)` (which satisfies all of the
claim's hypotheses: `0 < min ≤ max`, `weight ≥ 0`, rounded-up minima fit),
`qualify_chunks` takes the uncontested branch, returns
`optimal_final_size = 1`, and the sum `1` differs from the space's
`2` bytes. -/
theorem c1_conservation_counterexample :
    qualify_chunks pyRoundDiv pyMixDiv ⟨2, 1⟩ [BC 1 1 0] =
        .ok [⟨1, 1, 0, 1, 1, 1, -1⟩] ∧
      (([(⟨1, 1, 0, 1, 1, 1, -1⟩ : BlockChunk)].map fun q => q.optimal_final_size).sum ≠
        (⟨2, 1⟩ : ChunkableSpace).size_in_octets) := by
  exact ⟨by decide, by decide⟩

/-- Claim C1, amended.  In every *contested* successful run of
`qualify_chunks` (the rounded maxima exceed the space) over a non-empty
request list with `0 < min_size ≤ max_size`, `weight ≥ 0` and
rounded-up minima that fit, the returned `optimal_final_size` values sum
exactly to `space.size_in_blocks * space.block_size`; in the uncontested
case each final size is the rounded maximum and the sum may fall short of
the space. -/
theorem c1_contested_conservation
    (ro : Int → Int → Int) (ap : Int → Int → Int → Int → Int)
    (sp : ChunkableSpace) (chunks qs : List BlockChunk)
    (hne : chunks ≠ [])
    (hvalid : ∀ c ∈ chunks, 0 < c.min_size ∧ c.min_size ≤ c.max_size ∧ 0 ≤ c.weight)
    (hinit : ∀ c ∈ chunks, c.optimal_final_size = -1)
    (hfit : (chunks.map fun c => round_up c.min_size sp.block_size).sum ≤
      sp.block_size * sp.size_in_blocks)
    (hq : qualify_chunks ro ap sp chunks = .ok qs)
    (hcont : sp.size_in_octets < (qs.map fun q => q.optimal_max_size).sum) :
    (qs.map fun q => q.optimal_final_size).sum = sp.size_in_octets := by
  unfold qualify_chunks at hq
  split at hq
  · exact absurd hq (by simp)
  · exact absurd hq (by simp)
  · split at hq
    · exact absurd hq (by simp)
    next qs1 hm1 =>
      dsimp only at hq
      split at hq
      · split at hq
        · exact absurd hq (by simp)
        next qs2 hm2 =>
          have hlen1 := mapE_ok_length hm1
          have hlen2 := mapE_ok_length hm2
          have hne2 : qs2 ≠ [] := by
            intro hnil
            apply hne
            apply List.length_eq_zero.mp
            rw [← hlen1, ← hlen2, hnil]
            rfl
          exact assignFinals_sum hne2 (by simp)
            (mapE_setAdjusted_final_neg_one hm1 hm2 hinit) hq
      next hnc =>
        rw [← Except.ok.inj hq] at hcont
        rw [List.map_map] at hcont
        have hfun : ((fun q => q.optimal_max_size) ∘
            fun c => { c with optimal_final_size := c.optimal_max_size }) =
            fun (c : BlockChunk) => c.optimal_max_size := rfl
        rw [hfun] at hcont
        unfold ChunkableSpace.size_in_octets at hcont hnc
        omega

/-- Witness for `c1_contested_conservation`: on `ChunkableSpace(30, 10)`
with two requests `BlockChunk(100, 200, 1)` the allocation is contested
(`Σ opt_max = 400 > 300`) and the final sizes `150 + 150` sum to the
space's `300` bytes. -/
theorem c1_contested_conservation_witness :
    (([⟨100, 200, 1, 100, 200, 150, 50⟩, ⟨100, 200, 1, 100, 200, 150, 50⟩] :
        List BlockChunk).map fun q => q.optimal_final_size).sum =
      (⟨30, 10⟩ : ChunkableSpace).size_in_octets :=
  c1_contested_conservation pyRoundDiv pyMixDiv ⟨30, 10⟩
    [BC 100 200 1, BC 100 200 1]
    [⟨100, 200, 1, 100, 200, 150, 50⟩, ⟨100, 200, 1, 100, 200, 150, 50⟩]
    (by decide) (by decide) (by decide) (by decide) (by decide) (by decide)

/-- Claim C2, code evaluation.  On `ChunkableSpace(30, 10)` with requests
`BlockChunk(10, 200, 0)` and `BlockChunk(100, 110, 1)` the allocation is
contested and the residue assigned to the last chunk yields
`optimal_final_size = 290`, strictly above its `optimal_max_size = 110`:
the code violates the claimed `final ≤ opt_max` bound.  (Every IEEE-754
operation in this run is exact: the float quotients are `0.0`, `10.0` and
`1.0`.) -/
theorem c2_last_chunk_exceeds_max :
    qualify_chunks pyRoundDiv pyMixDiv ⟨30, 10⟩ [BC 10 200 0, BC 100 110 1] =
        .ok [⟨10, 200, 0, 10, 200, 10, 0⟩, ⟨100, 110, 1, 100, 110, 290, 10⟩] ∧
      (⟨100, 110, 1, 100, 110, 290, 10⟩ : BlockChunk).optimal_max_size <
        (⟨100, 110, 1, 100, 110, 290, 10⟩ : BlockChunk).optimal_final_size := by
  exact ⟨by decide, by decide⟩

/-- Claim C3, code evaluation.  On the contested allocation
`ChunkableSpace(30, 10)` with `BlockChunk(100, 200, 0)`,
`BlockChunk(100, 200, 0)` — all weights zero — `qualify_chunks` raises
`ZeroDivisionError` at `round(delta * weight / sum_weight)` instead of
falling back to the rounded minima as the claim requires. -/
theorem c3_zero_weights_divide_by_zero :
    qualify_chunks pyRoundDiv pyMixDiv ⟨30, 10⟩ [BC 100 200 0, BC 100 200 0] =
      .error .zeroDivision := by
  decide

/-- Claim C7.  In every successful run of `qualify_chunks` on requests (whose
derived fields are still at the constructor default `-1`), every returned
`optimal_final_size` is an exact multiple of `space.block_size`, the last
chunk included. -/
theorem c7_finals_block_aligned
    (ro : Int → Int → Int) (ap : Int → Int → Int → Int → Int)
    (sp : ChunkableSpace) (chunks qs : List BlockChunk)
    (hinit : ∀ c ∈ chunks, c.optimal_final_size = -1)
    (hq : qualify_chunks ro ap sp chunks = .ok qs) :
    ∀ q ∈ qs, sp.block_size ∣ q.optimal_final_size := by
  unfold qualify_chunks at hq
  split at hq
  · exact absurd hq (by simp)
  · exact absurd hq (by simp)
  · split at hq
    · exact absurd hq (by simp)
    next qs1 hm1 =>
      dsimp only at hq
      split at hq
      · split at hq
        · exact absurd hq (by simp)
        next qs2 hm2 =>
          have hoct : sp.block_size ∣ sp.size_in_octets :=
            dvd_mul_left sp.block_size sp.size_in_blocks
          exact assignFinals_dvd hoct (by simp)
            (mapE_setAdjusted_final_neg_one hm1 hm2 hinit) hq
      · intro q hqmem
        rw [← Except.ok.inj hq] at hqmem
        rcases List.mem_map.mp hqmem with ⟨c1, hc1, hqe⟩
        rw [← hqe]
        exact (mkOptChunk_ok (mapE_ok_forall hm1 c1 hc1).choose_spec.2).2.1

/-- Witness for `c7_finals_block_aligned`: on `ChunkableSpace(300, 10)`
with requests `BlockChunk(1500, 1500, 10)` and `BlockChunk(1000, 1000, 20)`
the first returned chunk's final size `1500` is a multiple of the block
size `10`. -/
theorem c7_finals_block_aligned_witness :
    (⟨300, 10⟩ : ChunkableSpace).block_size ∣ (1500 : Int) :=
  c7_finals_block_aligned pyRoundDiv pyMixDiv ⟨300, 10⟩
    [BC 1500 1500 10, BC 1000 1000 20]
    [⟨1500, 1500, 10, 1500, 1500, 1500, -1⟩, ⟨1000, 1000, 20, 1000, 1000, 1000, -1⟩]
    (by decide) (by decide) ⟨1500, 1500, 10, 1500, 1500, 1500, -1⟩ (by decide)

/-- Claim C6.  `qualify_chunks` fails with the insufficient-space error
exactly when the block-rounded minima exceed the space (for spaces with
`block_size ≥ 1` and requests with `min_size ≥ 1`, the values for which
the rounding is defined); in particular `has_minmun_space` returns
`False` on `ChunkableSpace(200, 10)` with `BlockChunk(1000, 2000, 20)`
and `BlockChunk(1001, 2000, 20)`. -/
theorem c6_insufficient_space_iff :
    (∀ (ro : Int → Int → Int) (ap : Int → Int → Int → Int → Int)
        (sp : ChunkableSpace) (chunks : List BlockChunk),
        1 ≤ sp.block_size → (∀ c ∈ chunks, 1 ≤ c.min_size) →
        (qualify_chunks ro ap sp chunks = .error .notEnoughSpace ↔
          sp.block_size * sp.size_in_blocks <
            (chunks.map fun c => round_up c.min_size sp.block_size).sum)) ∧
      has_minmun_space ⟨200, 10⟩ [BC 1000 2000 20, BC 1001 2000 20] = .ok false := by
  constructor
  · intro ro ap sp chunks hb hmin
    have hhm := has_minmun_space_eval hb hmin
    constructor
    · intro hq
      by_contra hlt
      push_neg at hlt
      rw [decide_eq_true hlt] at hhm
      unfold qualify_chunks at hq
      rw [hhm] at hq
      cases hm1 : mapE (mkOptChunk sp.block_size) chunks with
      | error e =>
        rw [hm1] at hq
        have he := Except.error.inj hq
        have hv := mkOptChunk_error (mapE_error hm1).choose_spec.2
        rw [he] at hv
        exact PyError.noConfusion hv
      | ok qs1 =>
        rw [hm1] at hq
        dsimp only at hq
        split at hq
        · split at hq
          next e hm2 =>
            have he := Except.error.inj hq
            rcases setAdjusted_error (mapE_error hm2).choose_spec.2 with h | h <;>
              (rw [he] at h; exact PyError.noConfusion h)
          next qs2 hm2 =>
            rcases assignFinals_error hq with h | h <;> exact PyError.noConfusion h
        · exact absurd hq (by simp)
    · intro hlt
      rw [decide_eq_false (by omega)] at hhm
      unfold qualify_chunks
      rw [hhm]
  · decide

/-- Witness for `c6_insufficient_space_iff`: on `ChunkableSpace(200, 10)`
with `BlockChunk(1000, 2000, 20)` and `BlockChunk(1001, 2000, 20)` the
rounded minima `1000 + 1010` exceed the `2000` bytes of space and
`qualify_chunks` raises the insufficient-space error. -/
theorem c6_insufficient_space_iff_witness :
    qualify_chunks pyRoundDiv pyMixDiv ⟨200, 10⟩ [BC 1000 2000 20, BC 1001 2000 20] =
      .error .notEnoughSpace :=
  (c6_insufficient_space_iff.1 pyRoundDiv pyMixDiv ⟨200, 10⟩
    [BC 1000 2000 20, BC 1001 2000 20] (by decide) (by decide)).mpr (by decide)

/-- Claim C4, code evaluation.  `Recipe._set_commons` reads
`dev.addressable_space.nb_block`, but `ChunkableSpace` defines
`size_in_blocks`, `block_size` and `size_in_octets` only — so on every
non-empty device list the method raises
`AttributeError("nb_block")` instead of establishing the common geometry
claimed (`common_block_size = max`, `common_space` = rounded-down min). -/
theorem c4_set_commons_attribute_error :
    ∀ devices : List ChunkableSpace, devices ≠ [] →
      set_commons devices = .error (.attributeError ("nb_block".data)) := by
  intro devices hne
  cases devices with
  | nil => exact absurd rfl hne
  | cons d t =>
    have hga : csGetattr d ("nb_block".data) =
        .error (.attributeError ("nb_block".data)) := by
      unfold csGetattr
      rw [if_neg (by decide), if_neg (by decide), if_neg (by decide)]
    have hm : mapE (fun dev : ChunkableSpace =>
        match csGetattr dev ("nb_block".data) with
        | .error e => .error e
        | .ok nb =>
          match csGetattr dev ("block_size".data) with
          | .error e => .error e
          | .ok bs => (.ok (nb * bs) : Except PyError Int)) (d :: t) =
        .error (.attributeError ("nb_block".data)) := by
      simp only [mapE]
      rw [hga]
    unfold set_commons
    rw [hm]

/-- Witness for `c4_set_commons_attribute_error`: a single device whose
addressable space is `ChunkableSpace(77919, 512)` (the spec's clean-GPT
example geometry). -/
theorem c4_set_commons_attribute_error_witness :
    set_commons [⟨77919, 512⟩] = .error (.attributeError ("nb_block".data)) :=
  c4_set_commons_attribute_error [⟨77919, 512⟩] (by decide)

/-- Claim C5, code evaluation.  The source regex `^[a-zA-z0-9_-]+$` writes
`A-z` where the spec's regex `^[A-Za-z0-9_-]+$` has `A-Z`, so the class
also covers the code points between `Z` and `a`.  `validate_handle`
therefore *accepts* the handle `"^"` — a string the spec's regex
rejects — refuting the claimed acceptance condition. -/
theorem c5_handle_regex_mismatch :
    validate_handle ("^".data) = .ok ("^".data) ∧
      specHandleMatches ("^".data) = false := by
  exact ⟨by decide, by decide⟩

/-- Claim C8.  The size parser's concrete round-trips:
`convert_size_to_bytes("5MiB") = 5 * 1024^2 = 5242880`,
`convert_size_to_bytes(" 5 MB ") = 5000000`, and inner/outer whitespace
does not change the result for a valid unit
(`convert_size_to_bytes("5MB") = convert_size_to_bytes("5 MB")`). -/
theorem c8_size_parser_round_trips :
    convert_size_to_bytes ("5MiB".data) = .ok 5242880 ∧
      convert_size_to_bytes (" 5 MB ".data) = .ok 5000000 ∧
      convert_size_to_bytes ("5MB".data) = convert_size_to_bytes ("5 MB".data) := by
  exact ⟨by decide, by decide, by decide⟩

/-- Claim C9.  `RaidVolume._check_devices` raises the "wrong number of
devices" error exactly when the per-level device-count rules are
violated: level 1 with other than 2 data devices, level 10 with other
than 4, levels 4/5/6 with fewer than 3; in particular a RAID-1
configuration with `dev_indices = [0, 1, 2]` fails. -/
theorem c9_raid_level_device_count_rules :
    (∀ (raid_level : Int) (dev_indices spare_indices part_devices : List Int),
        check_devices raid_level dev_indices spare_indices part_devices =
            .error .raidWrongDeviceCount ↔
          ((raid_level = 1 ∧ dev_indices.length ≠ 2) ∨
            (raid_level = 10 ∧ dev_indices.length ≠ 4) ∨
            ((raid_level = 4 ∨ raid_level = 5 ∨ raid_level = 6) ∧
              dev_indices.length < 3))) ∧
      check_devices 1 [0, 1, 2] [] [10, 11, 12] = .error .raidWrongDeviceCount := by
  constructor
  · intro lvl devs spares parts
    unfold check_devices
    split_ifs with h1 h2 h3 h4 h5
    · exact iff_of_true rfl (Or.inl h1)
    · exact iff_of_true rfl (Or.inr (Or.inl h2))
    · exact iff_of_true rfl (Or.inr (Or.inr h3))
    · exact iff_of_false (by simp) (by tauto)
    · exact iff_of_false (by simp) (by tauto)
    · refine iff_of_false ?_ (by tauto)
      intro hq
      cases hm1 : mapE (pyIndex parts) devs with
      | error e =>
        rw [hm1] at hq
        have he := Except.error.inj hq
        have hi := pyIndex_error (mapE_error hm1).choose_spec.2
        rw [he] at hi
        exact PyError.noConfusion hi
      | ok ds =>
        rw [hm1] at hq
        cases hm2 : mapE (pyIndex parts) spares with
        | error e =>
          rw [hm2] at hq
          have he := Except.error.inj hq
          have hi := pyIndex_error (mapE_error hm2).choose_spec.2
          rw [he] at hi
          exact PyError.noConfusion hi
        | ok ss =>
          rw [hm2] at hq
          exact absurd hq (by simp)
  · decide

/-- Witness for `c9_raid_level_device_count_rules`: RAID-5 with only two
data devices is rejected with the device-count error. -/
theorem c9_raid_level_device_count_rules_witness :
    check_devices 5 [0, 1] [] [] = .error .raidWrongDeviceCount :=
  (c9_raid_level_device_count_rules.1 5 [0, 1] [] []).mpr (by tauto)

/-- Claim C10.  `validate_handle` strips surrounding whitespace before
matching and returns the stripped string (which is what the `Volume`
constructors store): `" root "` is accepted as `"root"`, and every
accepted handle equals the stripped input and carries no surrounding
whitespace. -/
theorem c10_validate_handle_strips :
    validate_handle (" root ".data) = .ok ("root".data) ∧
      ∀ (h s : List Char), validate_handle h = .ok s →
        s = pyStrip h ∧ pyStrip s = s := by
  constructor
  · decide
  · intro h s hok
    unfold validate_handle at hok
    dsimp only at hok
    split at hok
    next hmatch =>
      have hs : s = pyStrip h := (Except.ok.inj hok).symm
      rw [← hs] at hmatch
      refine ⟨hs, ?_⟩
      simp only [matchHandleRe, Bool.or_eq_true, Bool.and_eq_true] at hmatch
      rcases hmatch with ⟨_, hall⟩ | ⟨⟨hlast, _⟩, _⟩
      · exact pyStrip_of_all_handleChar hall
      · exfalso
        have hl : s.getLast? = some '\n' := eq_of_beq hlast
        rw [hs] at hl
        have := pyStrip_getLast_not_space hl
        exact absurd this (by decide)
    next => exact absurd hok (by simp)

/-- Witness for `c10_validate_handle_strips`: the accepted handle
`"root"` is the stripped form of `" root "` and is itself
whitespace-free. -/
theorem c10_validate_handle_strips_witness :
    "root".data = pyStrip (" root ".data) ∧ pyStrip ("root".data) = "root".data :=
  c10_validate_handle_strips.2 (" root ".data) ("root".data) (by decide)

end Claims

end PyPartRecipe
